import Mathlib

/-!
Verification of the `clipse` configuration resolver (`src/clipse/resolver.py`).

The development shallowly embeds the resolver: Python/JSON values become the
inductive `Json` below, Python `dict`s become insertion-ordered association
lists with unique keys, and functions that can raise become `Except`-valued
functions.  Each definition is translated from the corresponding Python
function; definitions whose name matches a `_name` in the source model that
function.
-/

namespace Clipse

/-- Model of the Python values manipulated by the resolver: `None`, booleans,
integers, strings, lists, and insertion-ordered mappings (Python `dict`s,
modelled as association lists; documents decoded from JSON have unique keys).
Floats do not occur in the resolver's documents and are not modelled. -/
inductive Json where
  | null : Json
  | bool : Bool → Json
  | int : Int → Json
  | str : String → Json
  | arr : List Json → Json
  | obj : List (String × Json) → Json

/-- Entry list of a Python `dict` with string keys, in insertion order. -/
abbrev JObj := List (String × Json)

mutual

/-- Boolean equality on `Json` (used to build decidable equality). -/
def beqJson : Json → Json → Bool
  | .null, .null => true
  | .bool a, .bool b => a == b
  | .int a, .int b => a == b
  | .str a, .str b => a == b
  | .arr a, .arr b => beqJsonList a b
  | .obj a, .obj b => beqJsonEntries a b
  | _, _ => false

/-- Boolean equality on lists of `Json`. -/
def beqJsonList : List Json → List Json → Bool
  | [], [] => true
  | a :: as, b :: bs => beqJson a b && beqJsonList as bs
  | _, _ => false

/-- Boolean equality on entry lists. -/
def beqJsonEntries : JObj → JObj → Bool
  | [], [] => true
  | (ka, va) :: as, (kb, vb) :: bs => ka == kb && beqJson va vb && beqJsonEntries as bs
  | _, _ => false

end

mutual

theorem beqJson_iff : ∀ a b : Json, beqJson a b = true ↔ a = b
  | .null, b => by cases b <;> simp [beqJson]
  | .bool x, b => by cases b <;> simp [beqJson]
  | .int x, b => by cases b <;> simp [beqJson]
  | .str x, b => by cases b <;> simp [beqJson]
  | .arr xs, b => by cases b <;> simp [beqJson, beqJsonList_iff xs]
  | .obj m, b => by cases b <;> simp [beqJson, beqJsonEntries_iff m]

theorem beqJsonList_iff : ∀ a b : List Json, beqJsonList a b = true ↔ a = b
  | [], b => by cases b <;> simp [beqJsonList]
  | x :: xs, b => by
    cases b with
    | nil => simp [beqJsonList]
    | cons y ys => simp [beqJsonList, beqJson_iff x y, beqJsonList_iff xs ys]

theorem beqJsonEntries_iff : ∀ a b : JObj, beqJsonEntries a b = true ↔ a = b
  | [], b => by cases b <;> simp [beqJsonEntries]
  | (k, v) :: xs, b => by
    cases b with
    | nil => simp [beqJsonEntries]
    | cons y ys =>
      cases y with
      | mk k2 v2 =>
        simp [beqJsonEntries, beqJson_iff v v2, beqJsonEntries_iff xs ys, and_assoc]

end

instance : DecidableEq Json := fun a b => decidable_of_iff (beqJson a b = true) (beqJson_iff a b)

instance {ε α : Type} [DecidableEq ε] [DecidableEq α] : DecidableEq (Except ε α) := fun a b =>
  match a, b with
  | .error e, .error f =>
    if h : e = f then .isTrue (congrArg Except.error h)
    else .isFalse (fun he => h (Except.error.inj he))
  | .ok x, .ok y =>
    if h : x = y then .isTrue (congrArg Except.ok h)
    else .isFalse (fun he => h (Except.ok.inj he))
  | .error _, .ok _ => .isFalse (fun he => Except.noConfusion he)
  | .ok _, .error _ => .isFalse (fun he => Except.noConfusion he)

/-- Lookup in a `dict` (`m[k]` / `m.get(k)`): the value of the first entry with
the given key, if any. -/
def getKey? : JObj → String → Option Json
  | [], _ => none
  | (k0, v0) :: rest, k => if k0 == k then some v0 else getKey? rest k

/-- Membership test `k in m` on a `dict`. -/
def hasKey (m : JObj) (k : String) : Bool := (getKey? m k).isSome

/-- Assignment `m[k] = v` on a `dict`: replaces the value in place if the key
is present (keeping its position), else appends the new entry. -/
def setKey : JObj → String → Json → JObj
  | [], k, v => [(k, v)]
  | (k0, v0) :: rest, k, v => if k0 == k then (k0, v) :: rest else (k0, v0) :: setKey rest k v

/-- Union `\x7b**a, **b\x7d` of two `dict`s: entries of `a` in order, updated and
extended by the entries of `b`. -/
def dictUnion (a b : JObj) : JObj := b.foldl (fun acc kv => setKey acc kv.1 kv.2) a

mutual

/-- Python `repr()` of a value, as embedded in f-strings for containers.
Escaping inside string reprs (quotes, backslashes, control characters) is not
modelled; the resolver's diagnostics only embed plain identifier-like strings. -/
def pyRepr : Json → String
  | .null => "None"
  | .bool true => "True"
  | .bool false => "False"
  | .int n => toString n
  | .str s => "'" ++ s ++ "'"
  | .arr xs => "[" ++ pyReprList xs ++ "]"
  | .obj m => "\x7b" ++ pyReprEntries m ++ "\x7d"

/-- Comma-separated reprs of list elements. -/
def pyReprList : List Json → String
  | [] => ""
  | [x] => pyRepr x
  | x :: xs => pyRepr x ++ ", " ++ pyReprList xs

/-- Comma-separated `'key': value` reprs of dict entries. -/
def pyReprEntries : JObj → String
  | [] => ""
  | [(k, v)] => "'" ++ k ++ "': " ++ pyRepr v
  | (k, v) :: rest => "'" ++ k ++ "': " ++ pyRepr v ++ ", " ++ pyReprEntries rest

end

/-- Python `str()` of a value, as interpolated by f-strings: strings are taken
verbatim, scalars printed Python-style, containers fall back to `repr`. -/
def pyStr : Json → String
  | .null => "None"
  | .bool true => "True"
  | .bool false => "False"
  | .int n => toString n
  | .str s => s
  | .arr xs => pyRepr (.arr xs)
  | .obj m => pyRepr (.obj m)

/-- Python `s.split(sep)` for a single separator character. -/
def splitOnChar (sep : Char) : List Char → List (List Char)
  | [] => [[]]
  | c :: rest =>
    let r := splitOnChar sep rest
    if c == sep then [] :: r
    else
      match r with
      | h :: t => (c :: h) :: t
      | [] => [[c]]

/-- Plain reading of the pointer grammar `^#(/[^/]+)*$`: a leading `#`
followed by zero or more `/segment` groups with nonempty, slash-free
segments (`[^/]` matches any other character, newlines included). -/
def jsonPointerReStrict (p : String) : Bool :=
  match p.data with
  | ['#'] => true
  | '#' :: '/' :: rest => (splitOnChar '/' rest).all (fun s => !s.isEmpty)
  | _ => false

/-- Decides `re.match(r"^#(/[^/]+)*$", p)` from `_json_pointer_get`.
Python's `$` also matches just before a single trailing newline; for this
pattern the only input accepted through that allowance beyond the plain
grammar is the string `"#\n"` (a trailing newline anywhere else is absorbed
into a final `[^/]+` segment and already matches the plain grammar). -/
def jsonPointerRe (p : String) : Bool :=
  jsonPointerReStrict p || p == "#\n"

/-- Models `pointer.lstrip("#/")`: removes every leading `#` or `/` character. -/
def lstripRefChars (s : String) : String := ⟨s.data.dropWhile (fun c => c == '#' || c == '/')⟩

/-- Scanning loop of Python `s.replace(pat, rep)` for a nonempty pattern:
replace non-overlapping occurrences left to right.  The fuel argument is
initialised to the list length; every step consumes at least one character. -/
def replaceScan (pat rep : List Char) : Nat → List Char → List Char
  | 0, _ => []
  | _ + 1, [] => []
  | fuel + 1, c :: rest =>
    if pat.isPrefixOf (c :: rest) then
      rep ++ replaceScan pat rep fuel ((c :: rest).drop pat.length)
    else c :: replaceScan pat rep fuel rest

/-- Python `s.replace(pat, rep)` (only used with nonempty patterns, so the
empty-pattern corner of Python's `replace` is not modelled). -/
def pyReplace (s pat rep : String) : String :=
  ⟨replaceScan pat.data rep.data s.data.length s.data⟩

/-- Pointer-token unescaping from `_json_pointer_get`: `~1` to `/` first, then
`~0` to `~`. -/
def unescapeToken (t : String) : String := pyReplace (pyReplace t "~1" "/") "~0" "~"

/-- Descent loop of `_json_pointer_get`: walk the encoded tokens, unescaping
each and requiring the current value to be a mapping containing it. -/
def pointerDescend : Json → List String → String → Except String Json
  | cur, [], _ => .ok cur
  | cur, tokEnc :: rest, pointer =>
    let token := unescapeToken tokEnc
    match cur with
    | .obj m =>
      match getKey? m token with
      | some v => pointerDescend v rest pointer
      | none => .error ("Invalid $ref path segment: " ++ pyRepr (.str token) ++ " in " ++ pointer)
    | _ => .error ("Invalid $ref path segment: " ++ pyRepr (.str token) ++ " in " ++ pointer)

/-- Model of `_json_pointer_get`: resolve a local JSON Pointer within `doc`,
failing with a `ResolutionError` message for malformed pointers and missing
path segments. -/
def jsonPointerGet (doc : Json) (pointer : String) : Except String Json :=
  if !(jsonPointerRe pointer) then
    .error ("Unsupported $ref; must be local JSON Pointer, got: " ++ pointer)
  else if pointer == "#" then
    .ok doc
  else
    pointerDescend doc
      ((splitOnChar '/' (lstripRefChars pointer).data).map (fun cs => (⟨cs⟩ : String))) pointer

mutual

/-- Per-entry step of `_merge`: execute one iteration of its loop, assigning
`out[k]` to the recursive merge when both old and new values are mappings and
to (a deep copy of) the override value otherwise. -/
def mergeOne (out : JObj) (k : String) : Json → JObj
  | .obj vb =>
    (match getKey? out k with
     | some (.obj oa) => setKey out k (.obj (merge oa vb))
     | _ => setKey out k (.obj vb))
  | v => setKey out k v

/-- Model of `_merge`: deep-merge two mappings with the second overriding the
first, recursing only when both collide on mapping values.  Deep copies are
identities on immutable values. -/
def merge (a : JObj) : JObj → JObj
  | [] => a
  | (k, v) :: rest => merge (mergeOne a k v) rest

end

/-- Characters matched by `[a-zA-Z0-9_\-]` in `_VAR_RE`. -/
def isVarChar (c : Char) : Bool :=
  ('a' ≤ c && c ≤ 'z') || ('A' ≤ c && c ≤ 'Z') || ('0' ≤ c && c ≤ '9') || c == '_' || c == '-'

/-- Characters matched by `\s` in `_VAR_RE` (ASCII whitespace; the documents
hold ASCII placeholder text, so the Unicode extension of `\s` is immaterial). -/
def isPySpace (c : Char) : Bool :=
  c == ' ' || c == '\t' || c == '\n' || c == '\r' || c == '\x0b' || c == '\x0c'

/-- Attempt to match `_VAR_RE` at the head of a character list: on success,
returns the captured variable name, the full matched text, and the remainder.
The pattern's greedy runs (`\s*`, key characters) never need backtracking
because space, key, and brace characters are disjoint, so this deterministic
scan agrees with the regex engine. -/
def matchVarAt (cs : List Char) : Option (String × List Char × List Char) :=
  match cs with
  | '{' :: '{' :: rest =>
    (match rest.dropWhile isPySpace with
     | 'v' :: 'a' :: 'r' :: 's' :: '.' :: rest2 =>
       if (rest2.takeWhile isVarChar).isEmpty then none
       else
         (match (rest2.drop (rest2.takeWhile isVarChar).length).dropWhile isPySpace with
          | '}' :: '}' :: rest4 =>
            some (⟨rest2.takeWhile isVarChar⟩,
              '{' :: '{' :: (rest.takeWhile isPySpace ++
                ('v' :: 'a' :: 'r' :: 's' :: '.' ::
                  (rest2.takeWhile isVarChar ++
                    (rest2.drop (rest2.takeWhile isVarChar).length).takeWhile isPySpace ++
                    ['}', '}']))),
              rest4)
          | _ => none)
     | _ => none)
  | _ => none

/-- Scanning loop of `re.sub(_VAR_RE, rep, s)` with the replacement function
`rep` of `_render_vars_in_str`: at each position, replace a match whose
variable is bound to a non-`None` value by the value's `str()` form, keep the
matched text verbatim otherwise, and move on.  The fuel argument is
initialised to the list length; every step consumes at least one character,
so the fuel never runs out. -/
def renderScan (varsMap : JObj) : Nat → List Char → List Char
  | 0, _ => []
  | _ + 1, [] => []
  | fuel + 1, c :: rest =>
    match matchVarAt (c :: rest) with
    | some (key, matched, restAfter) =>
      let val := (getKey? varsMap key).getD .null
      (if val == Json.null then matched else (pyStr val).data) ++ renderScan varsMap fuel restAfter
    | none => c :: renderScan varsMap fuel rest

/-- Model of `_render_vars_in_str`: substitute `\x7b\x7bvars.KEY\x7d\x7d`
placeholders, then, when an id value is supplied, the literal text
`\x7b\x7bid\x7d\x7d`. -/
def renderVarsInStr (varsMap : JObj) (idValue : Option String) (s : String) : String :=
  let s2 : String := ⟨renderScan varsMap s.data.length s.data⟩
  match idValue with
  | some idVal => pyReplace s2 "\x7b\x7bid\x7d\x7d" idVal
  | none => s2

mutual

/-- Model of `_render_vars_in_obj`: render placeholders in every string nested
inside a value, recursing through lists and mappings. -/
def renderVarsInObj (varsMap : JObj) (idValue : Option String) : Json → Json
  | .str s => .str (renderVarsInStr varsMap idValue s)
  | .arr xs => .arr (renderVarsInList varsMap idValue xs)
  | .obj m => .obj (renderVarsInEntries varsMap idValue m)
  | j => j

/-- List clause of `_render_vars_in_obj`: element-wise, order preserved. -/
def renderVarsInList (varsMap : JObj) (idValue : Option String) : List Json → List Json
  | [] => []
  | x :: xs => renderVarsInObj varsMap idValue x :: renderVarsInList varsMap idValue xs

/-- Mapping clause of `_render_vars_in_obj`: value-wise, keys preserved. -/
def renderVarsInEntries (varsMap : JObj) (idValue : Option String) : JObj → JObj
  | [] => []
  | (k, v) :: rest =>
    (k, renderVarsInObj varsMap idValue v) :: renderVarsInEntries varsMap idValue rest

end

/-- Model of `_collect_selected_keys`: `list(section.keys())`. -/
def collectSelectedKeys (sect : JObj) : List String := sect.map Prod.fst

/-- Membership `v in sel` where `sel` is the Python set of selected key
strings: only an equal string is a member. -/
def pyContains (sel : List String) (v : Json) : Bool :=
  match v with
  | .str s => sel.contains s
  | _ => false

/-- View a value as a Python list for the constraint loops.  The schema shape
makes every constraint list an actual list; other values (over which Python
iteration would raise `TypeError`, or iterate a string character-wise) are
modelled as errors and are unreachable from schema-valid documents. -/
def asPyList : Json → Except String (List Json)
  | .arr xs => .ok xs
  | v => .error ("TypeError: constraint value is not a list: " ++ pyRepr v)

/-- Loop over `constraints.get("requires", [])` in `_validate_constraints`. -/
def requiresIssues (sel : List String) : List Json → List String
  | [] => []
  | name :: rest =>
    (if pyContains sel name then [] else ["requires: missing " ++ pyStr name])
      ++ requiresIssues sel rest

/-- Loop over `constraints.get("conflicts", [])`: `pair[0]`/`pair[1]` raise
`IndexError` on lists shorter than two (unreachable from schema-valid input). -/
def conflictsIssues (sel : List String) : List Json → Except String (List String)
  | [] => .ok []
  | pair :: rest =>
    match pair with
    | .arr (a :: b :: _) =>
      (match conflictsIssues sel rest with
       | .error e => .error e
       | .ok tail =>
         .ok ((if pyContains sel a && pyContains sel b
               then ["conflicts: " ++ pyStr a ++ " vs " ++ pyStr b] else []) ++ tail))
    | .arr _ => .error "IndexError: list index out of range"
    | v => .error ("TypeError: conflicts entry is not indexable: " ++ pyRepr v)

/-- Count `sum(1 for k in group if k in sel)`. -/
def groupCount (sel : List String) (g : List Json) : Nat := (g.filter (pyContains sel)).length

/-- Loop over `constraints.get("exactly_one_of", [])`. -/
def exactlyOneIssues (sel : List String) : List Json → Except String (List String)
  | [] => .ok []
  | g :: rest =>
    match asPyList g with
    | .error e => .error e
    | .ok gl =>
      (match exactlyOneIssues sel rest with
       | .error e => .error e
       | .ok tail =>
         .ok ((if groupCount sel gl ≠ 1
               then ["exactly_one_of violation: " ++ pyStr g ++ " present="
                      ++ toString (groupCount sel gl)] else [])
           ++ tail))

/-- Loop over `constraints.get("at_least_one_of", [])`. -/
def atLeastOneIssues (sel : List String) : List Json → Except String (List String)
  | [] => .ok []
  | g :: rest =>
    match asPyList g with
    | .error e => .error e
    | .ok gl =>
      (match atLeastOneIssues sel rest with
       | .error e => .error e
       | .ok tail =>
         .ok ((if groupCount sel gl < 1
               then ["at_least_one_of violation: " ++ pyStr g] else []) ++ tail))

/-- Model of `_validate_constraints`: evaluate each rule family in order over
the set of selected keys, collecting every issue. -/
def validateConstraints (selected : List String) (constraints : JObj) : Except String (List String) :=
  match asPyList ((getKey? constraints "requires").getD (.arr [])) with
  | .error e => .error e
  | .ok req =>
    match asPyList ((getKey? constraints "conflicts").getD (.arr [])) with
    | .error e => .error e
    | .ok conf =>
      match conflictsIssues selected conf with
      | .error e => .error e
      | .ok e2 =>
        match asPyList ((getKey? constraints "exactly_one_of").getD (.arr [])) with
        | .error e => .error e
        | .ok exa =>
          match exactlyOneIssues selected exa with
          | .error e => .error e
          | .ok e3 =>
            match asPyList ((getKey? constraints "at_least_one_of").getD (.arr [])) with
            | .error e => .error e
            | .ok atl =>
              match atLeastOneIssues selected atl with
              | .error e => .error e
              | .ok e4 => .ok (requiresIssues selected req ++ e2 ++ e3 ++ e4)

/-- Body of the `$ref` branch of `process_mapping` in `_apply_refs` for one
entry value: expand a reference marker against the original document `doc`,
or deep-copy a non-marker value unchanged. -/
def processEntry (doc : Json) (val : Json) : Except String Json :=
  match val with
  | .obj vm =>
    if hasKey vm "$ref" then
      let refVal := (getKey? vm "$ref").getD .null
      match jsonPointerGet doc (pyStr refVal) with
      | .error e => .error e
      | .ok (.obj bm) => .ok (.obj (merge bm (vm.filter (fun kv => kv.1 != "$ref"))))
      | .ok _ => .error ("$ref must point to a mapping: " ++ pyStr refVal)
    else .ok val
  | _ => .ok val

/-- Model of `process_mapping` in `_apply_refs`: rebuild a mapping entry by
entry, expanding reference markers against the original document. -/
def processMapping (doc : Json) : JObj → Except String JObj
  | [] => .ok []
  | (k, v) :: rest => do
    let v' ← processEntry doc v
    let rest' ← processMapping doc rest
    .ok ((k, v') :: rest')

/-- Second loop of `_apply_refs` over the processed `objects` mapping: for
each object that is a mapping with a mapping-valued `actions` key, process
that nested actions mapping. -/
def processObjActions (doc : Json) : JObj → Except String JObj
  | [] => .ok []
  | (k, o) :: rest => do
    let o' ←
      match o with
      | .obj od =>
        (match getKey? od "actions" with
         | some (.obj am) => do
             let am' ← processMapping doc am
             Except.ok (Json.obj (setKey od "actions" (.obj am')))
         | _ => Except.ok o)
      | _ => Except.ok o
    let rest' ← processObjActions doc rest
    .ok ((k, o') :: rest')

/-- Objects phase of `_apply_refs` (the `if "objects" in resolved ...` block):
process the top-level `objects` mapping, then each object's nested `actions`. -/
def applyRefsObjectsStep (doc : Json) (d : JObj) : Except String JObj :=
  match getKey? d "objects" with
  | some (.obj objEntries) => do
      let objs ← processMapping doc objEntries
      let objs2 ← processObjActions doc objs
      Except.ok (setKey d "objects" (.obj objs2))
  | _ => Except.ok d

/-- Actions phase of `_apply_refs` (the `if "actions" in resolved ...` block). -/
def applyRefsActionsStep (doc : Json) (r1 : JObj) : Except String JObj :=
  match getKey? r1 "actions" with
  | some (.obj actEntries) => do
      let acts ← processMapping doc actEntries
      Except.ok (setKey r1 "actions" (.obj acts))
  | _ => Except.ok r1

/-- Model of `_apply_refs`: expand `$ref` markers in the top-level `objects`
mapping, in each object's nested `actions` mapping, and in the top-level
`actions` mapping, always resolving pointers against the original document.
Deep copies are identities on immutable values. -/
def applyRefs (docEntries : JObj) : Except String JObj := do
  let doc := Json.obj docEntries
  let r1 ← applyRefsObjectsStep doc docEntries
  applyRefsActionsStep doc r1

/-- Result of resolving a config: the resolved document and any issues
(model of `ResolutionResult`). -/
structure ResolutionResult where
  resolved : JObj
  issues : List String
  deriving DecidableEq

/-- Read `node.get(k, \x7b\x7d) if isinstance(node.get(k), Mapping) else \x7b\x7d`:
the mapping stored under a key, or the empty mapping. -/
def getObjOrEmpty (m : JObj) (k : String) : JObj :=
  match getKey? m k with
  | some (.obj o) => o
  | _ => []

/-- Selected keys and constraint evaluation for one object or action node, as
inlined three times in `resolve_config`: the union of the `options` and
`positionals` key sets, checked against the node's `constraints` mapping when
that value is a mapping. -/
def nodeIssues (m : JObj) : Except String (List String) :=
  let opts := getObjOrEmpty m "options"
  let poss := getObjOrEmpty m "positionals"
  let sel := collectSelectedKeys (dictUnion opts poss)
  match getKey? m "constraints" with
  | some (.obj c) => validateConstraints sel c
  | _ => .ok []

/-- Inner loop of `resolve_config` over one object's nested actions. -/
def nestedActionIssues (objId : String) : JObj → Except String (List String)
  | [] => .ok []
  | (actId, act) :: rest => do
    let here ←
      match act with
      | .obj am => do
          let iss ← nodeIssues am
          Except.ok (iss.map (fun e => "object " ++ objId ++ " action " ++ actId ++ ": " ++ e))
      | _ => Except.ok []
    let tail ← nestedActionIssues objId rest
    .ok (here ++ tail)

/-- Loop of `resolve_config` over the top-level `objects` mapping. -/
def objectsIssues : JObj → Except String (List String)
  | [] => .ok []
  | (objId, o) :: rest => do
    let here ←
      match o with
      | .obj om => do
          let iss ← nodeIssues om
          let objIss := iss.map (fun e => "object " ++ objId ++ ": " ++ e)
          let actIss ←
            match getKey? om "actions" with
            | some (.obj am) => nestedActionIssues objId am
            | _ => Except.ok []
          Except.ok (objIss ++ actIss)
      | _ => Except.ok []
    let tail ← objectsIssues rest
    .ok (here ++ tail)

/-- Loop of `resolve_config` over the top-level `actions` mapping. -/
def topActionIssues : JObj → Except String (List String)
  | [] => .ok []
  | (actId, act) :: rest => do
    let here ←
      match act with
      | .obj am => do
          let iss ← nodeIssues am
          Except.ok (iss.map (fun e => "action " ++ actId ++ ": " ++ e))
      | _ => Except.ok []
    let tail ← topActionIssues rest
    .ok (here ++ tail)

/-- Extraction of the variables map in `resolve_config`: `shared_defs.vars`
when both levels are mappings, else empty. -/
def extractVars (doc : JObj) : JObj :=
  match getKey? doc "shared_defs" with
  | some (.obj sd) =>
    (match getKey? sd "vars" with
     | some (.obj vm) => vm
     | _ => [])
  | _ => []

/-- Issue-collection phase of `resolve_config` over the rendered document:
objects (with their nested actions) first, then top-level actions. -/
def collectIssues (doc : JObj) : Except String (List String) := do
  let objIss ←
    match getKey? doc "objects" with
    | some (.obj objs) => objectsIssues objs
    | _ => Except.ok []
  let actIss ←
    match getKey? doc "actions" with
    | some (.obj acts) => topActionIssues acts
    | _ => Except.ok []
  .ok (objIss ++ actIss)

/-- Model of `resolve_config`: expand references, render variables sourced
from `shared_defs.vars`, and collect constraint issues.  The initial
`validate_core_config(raw)` call is an external JSON-Schema collaborator that
raises on structurally invalid documents and is otherwise a no-op; it is not
modelled, and the claims concern schema-valid documents.  The `env` parameter
is reserved and never consulted. -/
def resolveConfig (raw : JObj) : Except String ResolutionResult := do
  let doc ← applyRefs raw
  let varsMap := extractVars doc
  let rendered := renderVarsInEntries varsMap none doc
  let issues ← collectIssues rendered
  .ok ⟨rendered, issues⟩

/-- Lookup in a nested mapping along a key path (reading helper for claims). -/
def getPath? : Json → List String → Option Json
  | j, [] => some j
  | .obj m, k :: rest =>
    (match getKey? m k with
     | some v => getPath? v rest
     | none => none)
  | _, _ :: _ => none

/-- Recognizer for reference markers (spec §3): a mapping containing `$ref`. -/
def isRefMarker : Json → Bool
  | .obj m => hasKey m "$ref"
  | _ => false

theorem getKey?_setKey_self (m : JObj) (k : String) (v : Json) :
    getKey? (setKey m k v) k = some v := by
  induction m with
  | nil => simp [setKey, getKey?]
  | cons kv rest ih =>
    obtain ⟨k0, v0⟩ := kv
    by_cases h : k0 = k
    · simp [setKey, h, getKey?]
    · simp [setKey, h, getKey?, ih]

theorem getKey?_setKey_ne (m : JObj) (k k' : String) (v : Json) (h : k' ≠ k) :
    getKey? (setKey m k v) k' = getKey? m k' := by
  induction m with
  | nil => simp [setKey, getKey?, Ne.symm h]
  | cons kv rest ih =>
    obtain ⟨k0, v0⟩ := kv
    by_cases h0 : k0 = k
    · subst h0
      simp [setKey, getKey?, Ne.symm h]
    · simp [setKey, h0, getKey?, ih]

theorem setKey_getKey?_self (m : JObj) (k : String) (v : Json)
    (h : getKey? m k = some v) : setKey m k v = m := by
  induction m with
  | nil => simp [getKey?] at h
  | cons kv rest ih =>
    obtain ⟨k0, v0⟩ := kv
    by_cases h0 : k0 = k
    · subst h0
      simp [getKey?] at h
      simp [setKey, h]
    · simp [getKey?, h0] at h
      simp [setKey, h0, ih h]

theorem hasKey_iff_mem_keys (m : JObj) (k : String) :
    hasKey m k = true ↔ k ∈ m.map Prod.fst := by
  induction m with
  | nil => simp [hasKey, getKey?]
  | cons kv rest ih =>
    obtain ⟨k0, v0⟩ := kv
    by_cases h0 : k0 = k
    · simp [hasKey, getKey?, h0]
    · simpa [hasKey, getKey?, h0, Ne.symm h0] using ih

/-- Reference expansion of a single entry value, written from the spec's
words (§4.3): a Reference-marker value is replaced by the deep-merge of its
non-`$ref` sibling fields on top of a copy of the mapping its pointer
resolves to in the original document, failing when the pointer does not
resolve or its target is not a mapping; any other value is kept unchanged. -/
def expandEntrySpec (orig : Json) (v : Json) : Except String Json :=
  if isRefMarker v then
    match v with
    | .obj vm => do
      let target ← jsonPointerGet orig (pyStr ((getKey? vm "$ref").getD .null))
      (match target with
       | .obj tm => Except.ok (.obj (merge tm (vm.filter (fun kv => kv.1 != "$ref"))))
       | _ => Except.error
           ("$ref must point to a mapping: " ++ pyStr ((getKey? vm "$ref").getD .null)))
    | _ => .ok v
  else .ok v

/-- Expansion of one key/value entry, keeping the key. -/
def expandKVSpec (orig : Json) (kv : String × Json) : Except String (String × Json) := do
  Except.ok (kv.1, ← expandEntrySpec orig kv.2)

/-- Entry-by-entry expansion of a whole mapping, from the spec's words. -/
def expandMapSpec (orig : Json) (m : JObj) : Except String JObj :=
  m.mapM (expandKVSpec orig)

/-- Nested-actions pass over one processed object entry, from the spec's
words: one level of recursion deep, objects to their `actions` mapping. -/
def expandObjActionsSpec (orig : Json) (kv : String × Json) : Except String (String × Json) :=
  match kv.2 with
  | .obj od =>
    (match getKey? od "actions" with
     | some (.obj am) => do
         let am' ← expandMapSpec orig am
         Except.ok (kv.1, Json.obj (setKey od "actions" (.obj am')))
     | _ => Except.ok kv)
  | _ => Except.ok kv

/-- Walk of reference expansion from the spec's words (§4.3): expand the
top-level `objects` entries, then each object's nested `actions` entries,
then the top-level `actions` entries, always resolving pointers against the
original input document. -/
def applyRefsSpec (d : JObj) : Except String JObj := do
  let orig := Json.obj d
  let withObjs ←
    match getKey? d "objects" with
    | some (.obj objs) => do
        let objs' ← expandMapSpec orig objs
        let objs'' ← objs'.mapM (expandObjActionsSpec orig)
        Except.ok (setKey d "objects" (.obj objs''))
    | _ => Except.ok d
  match getKey? withObjs "actions" with
  | some (.obj acts) => do
      let acts' ← expandMapSpec orig acts
      Except.ok (setKey withObjs "actions" (.obj acts'))
  | _ => Except.ok withObjs

theorem processEntry_eq_spec (doc : Json) (v : Json) :
    processEntry doc v = expandEntrySpec doc v := by
  cases v with
  | obj vm =>
    by_cases h : hasKey vm "$ref" = true
    · simp only [processEntry, expandEntrySpec, isRefMarker, h, if_pos]
      cases jsonPointerGet doc (pyStr ((getKey? vm "$ref").getD .null)) with
      | error e => rfl
      | ok t => cases t <;> rfl
    · simp only [processEntry, expandEntrySpec, isRefMarker, h]
      simp [h]
  | null => rfl
  | bool b => rfl
  | int n => rfl
  | str s => rfl
  | arr xs => rfl

theorem processMapping_eq_spec (doc : Json) (m : JObj) :
    processMapping doc m = expandMapSpec doc m := by
  induction m with
  | nil => rfl
  | cons kv rest ih =>
    obtain ⟨k, v⟩ := kv
    simp only [processMapping, expandMapSpec, List.mapM_cons, processEntry_eq_spec, ih]
    simp only [expandKVSpec]
    cases expandEntrySpec doc v <;> cases rest.mapM (expandKVSpec doc) <;> rfl

theorem processObjActions_eq_spec (doc : Json) (m : JObj) :
    processObjActions doc m = m.mapM (expandObjActionsSpec doc) := by
  induction m with
  | nil => rfl
  | cons kv rest ih =>
    obtain ⟨k, v⟩ := kv
    simp only [processObjActions, List.mapM_cons, ih, processMapping_eq_spec]
    cases v with
    | obj od =>
      cases hact : getKey? od "actions" with
      | none =>
        simp only [expandObjActionsSpec, hact]
        cases rest.mapM (expandObjActionsSpec doc) <;> rfl
      | some av =>
        cases av with
        | obj am =>
          simp only [expandObjActionsSpec, hact]
          cases expandMapSpec doc am <;> cases rest.mapM (expandObjActionsSpec doc) <;> rfl
        | null =>
          simp only [expandObjActionsSpec, hact]
          cases rest.mapM (expandObjActionsSpec doc) <;> rfl
        | bool b =>
          simp only [expandObjActionsSpec, hact]
          cases rest.mapM (expandObjActionsSpec doc) <;> rfl
        | int n =>
          simp only [expandObjActionsSpec, hact]
          cases rest.mapM (expandObjActionsSpec doc) <;> rfl
        | str s =>
          simp only [expandObjActionsSpec, hact]
          cases rest.mapM (expandObjActionsSpec doc) <;> rfl
        | arr xs =>
          simp only [expandObjActionsSpec, hact]
          cases rest.mapM (expandObjActionsSpec doc) <;> rfl
    | null =>
      simp only [expandObjActionsSpec]
      cases rest.mapM (expandObjActionsSpec doc) <;> rfl
    | bool b =>
      simp only [expandObjActionsSpec]
      cases rest.mapM (expandObjActionsSpec doc) <;> rfl
    | int n =>
      simp only [expandObjActionsSpec]
      cases rest.mapM (expandObjActionsSpec doc) <;> rfl
    | str s =>
      simp only [expandObjActionsSpec]
      cases rest.mapM (expandObjActionsSpec doc) <;> rfl
    | arr xs =>
      simp only [expandObjActionsSpec]
      cases rest.mapM (expandObjActionsSpec doc) <;> rfl

theorem okBind {α β : Type} (a : α) (f : α → Except String β) :
    (Except.ok a >>= f) = f a := rfl

theorem errBind {α β : Type} (e : String) (f : α → Except String β) :
    ((Except.error e : Except String α) >>= f) = Except.error e := rfl

theorem applyRefs_eq_spec (d : JObj) : applyRefs d = applyRefsSpec d := by
  simp only [applyRefs, applyRefsObjectsStep, applyRefsActionsStep, applyRefsSpec,
    processMapping_eq_spec, processObjActions_eq_spec]
  cases hobj : getKey? d "objects" with
  | none => simp only [okBind]
  | some ov =>
    cases ov with
    | obj objs =>
      dsimp only
      cases hexp : expandMapSpec (Json.obj d) objs with
      | error e => simp only [errBind]
      | ok objs' =>
        simp only [okBind]
        cases hmapM : objs'.mapM (expandObjActionsSpec (Json.obj d)) with
        | error e => simp only [errBind]
        | ok objs'' => simp only [okBind]
    | null => simp only [okBind]
    | bool b => simp only [okBind]
    | int n => simp only [okBind]
    | str s => simp only [okBind]
    | arr xs => simp only [okBind]

/-- Per-key description of deep merge, written from the spec's words (§4.2):
a key collides on two mappings and is merged recursively, or the override
value wins, or the base value is retained. -/
def mergeLookupSpec (a b : JObj) (k : String) : Option Json :=
  match getKey? a k, getKey? b k with
  | some (.obj ao), some (.obj bo) => some (.obj (merge ao bo))
  | _, some bv => some bv
  | some av, none => some av
  | none, none => none

/-- Value stored by one merge step: the recursive merge on a mapping/mapping
collision, the override value otherwise. -/
def mergeOneVal (a : JObj) (k : String) (v : Json) : Json :=
  match getKey? a k, v with
  | some (.obj oa), .obj vb => .obj (merge oa vb)
  | _, _ => v

theorem mergeOne_eq (a : JObj) (k : String) (v : Json) :
    mergeOne a k v = setKey a k (mergeOneVal a k v) := by
  cases v <;>
    (cases h0 : getKey? a k with
     | none => simp only [mergeOne, mergeOneVal, h0]
     | some av => cases av <;> simp only [mergeOne, mergeOneVal, h0])

theorem getKey?_mergeOne_ne (a : JObj) (k k' : String) (v : Json) (h : k' ≠ k) :
    getKey? (mergeOne a k v) k' = getKey? a k' := by
  rw [mergeOne_eq]
  exact getKey?_setKey_ne _ _ _ _ h

theorem getKey?_mergeOne_self (a : JObj) (k : String) (v : Json) :
    getKey? (mergeOne a k v) k = some (mergeOneVal a k v) := by
  rw [mergeOne_eq]
  exact getKey?_setKey_self _ _ _

theorem getKey?_merge_not_in (a b : JObj) (k : String) (h : k ∉ b.map Prod.fst) :
    getKey? (merge a b) k = getKey? a k := by
  induction b generalizing a with
  | nil => rfl
  | cons kv rest ih =>
    obtain ⟨k0, v⟩ := kv
    simp only [List.map_cons, List.mem_cons] at h
    push_neg at h
    simp only [merge]
    rw [ih _ h.2, getKey?_mergeOne_ne _ _ _ _ h.1]

theorem getKey?_merge_spec (a b : JObj) (k : String)
    (hb : (b.map Prod.fst).Nodup) :
    getKey? (merge a b) k = mergeLookupSpec a b k := by
  induction b generalizing a with
  | nil =>
    simp only [merge, mergeLookupSpec, getKey?]
    cases getKey? a k with
    | none => rfl
    | some av => cases av <;> rfl
  | cons kv rest ih =>
    obtain ⟨k0, v⟩ := kv
    simp only [List.map_cons, List.nodup_cons] at hb
    by_cases hk : k = k0
    · subst hk
      simp only [merge]
      rw [getKey?_merge_not_in _ _ _ hb.1, getKey?_mergeOne_self]
      have hhead : getKey? ((k, v) :: rest) k = some v := by simp [getKey?]
      simp only [mergeLookupSpec, hhead]
      cases h0 : getKey? a k with
      | none => cases v <;> simp only [mergeOneVal, h0]
      | some av => cases av <;> cases v <;> simp only [mergeOneVal, h0]
    · simp only [merge]
      rw [ih _ hb.2]
      have htail : getKey? ((k0, v) :: rest) k = getKey? rest k := by
        have : ¬k0 = k := fun hh => hk hh.symm
        simp [getKey?, this]
      simp only [mergeLookupSpec, htail]
      rw [getKey?_mergeOne_ne _ _ _ _ hk]

/-- Pointer resolution exactly as claim C4 words it: enforce the plain
grammar, treat `#` as the whole document, and otherwise split the text after
the leading `#` into segments on `/` (the grammar makes the part before the
first `/` empty; it contributes no segment), unescape, and descend. -/
def jsonPointerGetClaim (doc : Json) (pointer : String) : Except String Json :=
  if !(jsonPointerReStrict pointer) then
    .error ("Unsupported $ref; must be local JSON Pointer, got: " ++ pointer)
  else if pointer == "#" then
    .ok doc
  else
    pointerDescend doc
      (((splitOnChar '/' (pointer.data.drop 1)).drop 1).map (fun cs => (⟨cs⟩ : String))) pointer

/-- Pointers whose first segment does not begin with `#` (the family on which
the code's `lstrip` agrees with the claim's reading). -/
def firstSegNoHash (p : String) : Bool :=
  match p.data with
  | '#' :: '/' :: c :: _ => !(c == '#')
  | _ => true

theorem pointerGet_agrees (doc : Json) (p : String)
    (hstrict : jsonPointerReStrict p = true) (hhash : firstSegNoHash p = true) :
    jsonPointerGet doc p = jsonPointerGetClaim doc p := by
  cases hp : p.data with
  | nil =>
    simp only [jsonPointerReStrict, hp] at hstrict
    exact absurd hstrict (by simp)
  | cons c0 rest0 =>
    by_cases hc0 : c0 = '#'
    · subst hc0
      cases rest0 with
      | nil =>
        have hp' : p = "#" := by cases p; simp_all
        subst hp'
        simp [jsonPointerGet, jsonPointerGetClaim, jsonPointerRe, jsonPointerReStrict]
      | cons c1 rest1 =>
        by_cases hc1 : c1 = '/'
        · subst hc1
          have hstrict0 := hstrict
          simp only [jsonPointerReStrict, hp] at hstrict
          cases rest1 with
          | nil => simp [splitOnChar] at hstrict
          | cons c2 rest2 =>
            have hc2slash : ¬c2 = '/' := by
              intro he
              subst he
              simp [splitOnChar] at hstrict
            have hc2hash : ¬c2 = '#' := by
              simp only [firstSegNoHash, hp] at hhash
              simpa using hhash
            have hne : p ≠ "#" := by
              intro he
              rw [he] at hp
              simp at hp
            have hre : jsonPointerRe p = true := by
              simp [jsonPointerRe, hstrict0]
            have hb1 : (c2 == '#') = false := by simp [hc2hash]
            have hb2 : (c2 == '/') = false := by simp [hc2slash]
            have hstrip : (lstripRefChars p).data = c2 :: rest2 := by
              simp only [lstripRefChars, hp, List.dropWhile]
              simp [hb1, hb2]
            have hdrop : p.data.drop 1 = '/' :: c2 :: rest2 := by simp [hp]
            simp only [jsonPointerGet, jsonPointerGetClaim, hre, hdrop, hstrip,
              Bool.not_true, if_false, Bool.false_eq_true]
            have hsplit : splitOnChar '/' ('/' :: c2 :: rest2) = [] :: splitOnChar '/' (c2 :: rest2) := by
              simp [splitOnChar]
            rw [hsplit]
            simp [hstrict0, hne]
        · have : jsonPointerReStrict p = false := by
            simp only [jsonPointerReStrict, hp]
            simp [Ne.symm hc1, hc1]
          rw [this] at hstrict
          exact absurd hstrict (by simp)
    · have : jsonPointerReStrict p = false := by
        simp only [jsonPointerReStrict, hp]
        simp [hc0]
      rw [this] at hstrict
      exact absurd hstrict (by simp)

theorem pointerGet_malformed (doc : Json) (p : String)
    (hstrict : jsonPointerReStrict p = false) (hnl : p ≠ "#\n") :
    jsonPointerGet doc p =
      .error ("Unsupported $ref; must be local JSON Pointer, got: " ++ p) := by
  have hre : jsonPointerRe p = false := by
    simp [jsonPointerRe, hstrict, hnl]
  simp [jsonPointerGet, hre]

theorem pointerGet_newline (doc : Json) :
    jsonPointerGet doc "#\n" = pointerDescend doc ["\n"] "#\n" := by
  have hseg : ((splitOnChar '/' (lstripRefChars "#\n").data).map (fun cs => (⟨cs⟩ : String)))
      = ["\n"] := by decide
  have hre : jsonPointerRe "#\n" = true := by decide
  have hne : ("#\n" == "#") = false := by decide
  simp only [jsonPointerGet, hre, Bool.not_true, if_false, hne, hseg, Bool.false_eq_true]

theorem pointerGet_root (doc : Json) : jsonPointerGet doc "#" = .ok doc := by
  simp [jsonPointerGet, jsonPointerRe, jsonPointerReStrict]

end Clipse

namespace Clipse

theorem length_dropWhile_le' (p : Char → Bool) (l : List Char) :
    (l.dropWhile p).length ≤ l.length := by
  induction l with
  | nil => simp [List.dropWhile]
  | cons c r ih =>
    simp only [List.dropWhile]
    cases hp : p c
    · simp
    · simp only [List.length_cons]
      exact Nat.le_succ_of_le ih

theorem matchVarAt_length : ∀ cs k m r, matchVarAt cs = some (k, m, r) → r.length < cs.length := by
  intro cs k m r h
  unfold matchVarAt at h
  split at h
  next rest =>
    split at h
    next heq =>
      rename_i rest2
      split at h
      next => exact absurd h (by simp)
      next hkey =>
        split at h
        next heq2 =>
          rename_i rest4
          simp only [Option.some.injEq, Prod.mk.injEq] at h
          obtain ⟨hk, hm, hr⟩ := h
          subst hr
          have l1 : (List.dropWhile isPySpace rest).length ≤ rest.length :=
            length_dropWhile_le' _ _
          rw [heq] at l1
          simp only [List.length_cons] at l1
          have l2 : ((rest2.drop (rest2.takeWhile isVarChar).length).dropWhile isPySpace).length
              ≤ (rest2.drop (rest2.takeWhile isVarChar).length).length :=
            length_dropWhile_le' _ _
          rw [heq2] at l2
          simp only [List.length_cons, List.length_drop] at l2
          simp only [List.length_cons]
          omega
        next => exact absurd h (by simp)
    next => exact absurd h (by simp)
  next => exact absurd h (by simp)

theorem renderScan_fuel (vm : JObj) : ∀ n m cs, cs.length ≤ n → cs.length ≤ m →
    renderScan vm n cs = renderScan vm m cs := by
  intro n
  induction n using Nat.strongRecOn with
  | ind n ih =>
    intro m cs hn hm
    cases cs with
    | nil => cases n <;> cases m <;> rfl
    | cons c rest =>
      simp only [List.length_cons] at hn hm
      cases n with
      | zero => omega
      | succ n' =>
        cases m with
        | zero => omega
        | succ m' =>
          simp only [renderScan]
          cases hmatch : matchVarAt (c :: rest) with
          | none =>
            dsimp only
            rw [ih n' (by omega) m' rest (by omega) (by omega)]
          | some km =>
            obtain ⟨key, matched, restAfter⟩ := km
            have hlt := matchVarAt_length _ _ _ _ hmatch
            simp only [List.length_cons] at hlt
            dsimp only
            rw [ih n' (by omega) m' restAfter (by omega) (by omega)]

end Clipse

namespace Clipse

theorem takeWhile_app_all (p : Char → Bool) (l r : List Char) (h : ∀ c ∈ l, p c = true) :
    (l ++ r).takeWhile p = l ++ r.takeWhile p := by
  induction l with
  | nil => simp
  | cons c t ih =>
    simp [List.cons_append, List.takeWhile_cons, h c (by simp),
      ih (fun d hd => h d (by simp [hd]))]

theorem dropWhile_app_all (p : Char → Bool) (l r : List Char) (h : ∀ c ∈ l, p c = true) :
    (l ++ r).dropWhile p = r.dropWhile p := by
  induction l with
  | nil => simp
  | cons c t ih =>
    simp only [List.cons_append, List.dropWhile_cons, h c (by simp)]
    exact ih (fun c hc => h c (by simp [hc]))

theorem spaceNotVar (c : Char) (h : isPySpace c = true) : isVarChar c = false := by
  simp only [isPySpace, Bool.or_eq_true, beq_iff_eq] at h
  rcases h with ((((h | h) | h) | h) | h) | h <;> subst h <;> decide

theorem matchVarAt_placeholder (k sp1 sp2 sfx : List Char)
    (hk : ∀ c ∈ k, isVarChar c = true) (hk0 : k ≠ [])
    (h1 : ∀ c ∈ sp1, isPySpace c = true) (h2 : ∀ c ∈ sp2, isPySpace c = true) :
    matchVarAt ('{' :: '{' :: (sp1 ++ ('v' :: 'a' :: 'r' :: 's' :: '.' ::
        (k ++ sp2 ++ ('}' :: '}' :: sfx)))))
      = some (⟨k⟩,
          '{' :: '{' :: (sp1 ++ ('v' :: 'a' :: 'r' :: 's' :: '.' :: (k ++ sp2 ++ ['}', '}']))),
          sfx) := by
  have hv : isPySpace 'v' = false := by decide
  have hbr : isPySpace '}' = false := by decide
  have hbrv : isVarChar '}' = false := by decide
  have hdrop1 : (sp1 ++ ('v' :: 'a' :: 'r' :: 's' :: '.' :: (k ++ sp2 ++ ('}' :: '}' :: sfx)))).dropWhile isPySpace
      = 'v' :: 'a' :: 'r' :: 's' :: '.' :: (k ++ sp2 ++ ('}' :: '}' :: sfx)) := by
    rw [dropWhile_app_all _ _ _ h1]
    simp [List.dropWhile_cons, hv]
  have htake1 : (sp1 ++ ('v' :: 'a' :: 'r' :: 's' :: '.' :: (k ++ sp2 ++ ('}' :: '}' :: sfx)))).takeWhile isPySpace
      = sp1 := by
    rw [takeWhile_app_all _ _ _ h1]
    simp [List.takeWhile_cons, hv]
  have htail0 : ((sp2 ++ ('}' :: '}' :: sfx)).takeWhile isVarChar) = [] := by
    cases sp2 with
    | nil => simp [List.takeWhile_cons, hbrv]
    | cons c ss => simp [List.takeWhile_cons, spaceNotVar c (h2 c (by simp))]
  have hkeyeq : (k ++ sp2 ++ ('}' :: '}' :: sfx)).takeWhile isVarChar = k := by
    rw [List.append_assoc, takeWhile_app_all _ _ _ hk, htail0]
    simp
  have hdropk : ((k ++ sp2 ++ ('}' :: '}' :: sfx)).drop k.length) = sp2 ++ ('}' :: '}' :: sfx) := by
    rw [List.append_assoc]
    exact List.drop_left _ _
  have hdrop2 : ((sp2 ++ ('}' :: '}' :: sfx)).dropWhile isPySpace) = '}' :: '}' :: sfx := by
    rw [dropWhile_app_all _ _ _ h2]
    simp [List.dropWhile_cons, hbr]
  have htake2 : ((sp2 ++ ('}' :: '}' :: sfx)).takeWhile isPySpace) = sp2 := by
    rw [takeWhile_app_all _ _ _ h2]
    simp [List.takeWhile_cons, hbr]
  have hne : (k.isEmpty) = false := by
    cases k with
    | nil => exact absurd rfl hk0
    | cons c t => rfl
  simp only [matchVarAt, hdrop1, hkeyeq, hne, hdropk, hdrop2, htake1, htake2,
    Bool.false_eq_true, if_false]

end Clipse

namespace Clipse

theorem strEta (s : String) : (⟨s.data⟩ : String) = s := by
  cases s
  rfl

theorem strMkAppend (a b : List Char) : (⟨a ++ b⟩ : String) = (⟨a⟩ : String) ++ (⟨b⟩ : String) := rfl

theorem renderScan_placeholder (vm : JObj) (k sp1 sp2 sfx : List Char)
    (hk : ∀ c ∈ k, isVarChar c = true) (hk0 : k ≠ [])
    (h1 : ∀ c ∈ sp1, isPySpace c = true) (h2 : ∀ c ∈ sp2, isPySpace c = true) :
    renderScan vm
        ('{' :: '{' :: (sp1 ++ ('v' :: 'a' :: 'r' :: 's' :: '.' :: (k ++ sp2 ++ ('}' :: '}' :: sfx))))).length
        ('{' :: '{' :: (sp1 ++ ('v' :: 'a' :: 'r' :: 's' :: '.' :: (k ++ sp2 ++ ('}' :: '}' :: sfx)))))
      = (if ((getKey? vm ⟨k⟩).getD Json.null == Json.null) = true
         then '{' :: '{' :: (sp1 ++ ('v' :: 'a' :: 'r' :: 's' :: '.' :: (k ++ sp2 ++ ['}', '}'])))
         else (pyStr ((getKey? vm ⟨k⟩).getD Json.null)).data)
        ++ renderScan vm sfx.length sfx := by
  simp only [List.length_cons]
  simp only [renderScan, matchVarAt_placeholder k sp1 sp2 sfx hk hk0 h1 h2]
  congr 1
  apply renderScan_fuel
  · simp only [List.length_append, List.length_cons]
    omega
  · exact Nat.le_refl _

theorem renderVarsInStr_known (vm : JObj) (k sp1 sp2 sfx : String) (v : Json)
    (hk : ∀ c ∈ k.data, isVarChar c = true) (hk0 : k.data ≠ [])
    (h1 : ∀ c ∈ sp1.data, isPySpace c = true) (h2 : ∀ c ∈ sp2.data, isPySpace c = true)
    (hv : (getKey? vm k).getD Json.null = v) (hnn : v ≠ Json.null) :
    renderVarsInStr vm none ("\x7b\x7b" ++ sp1 ++ "vars." ++ k ++ sp2 ++ "\x7d\x7d" ++ sfx)
      = pyStr v ++ renderVarsInStr vm none sfx := by
  have hdata : ("\x7b\x7b" ++ sp1 ++ "vars." ++ k ++ sp2 ++ "\x7d\x7d" ++ sfx).data
      = '{' :: '{' :: (sp1.data ++ ('v' :: 'a' :: 'r' :: 's' :: '.' ::
          (k.data ++ sp2.data ++ ('}' :: '}' :: sfx.data)))) := by
    simp [String.data_append]
  simp only [renderVarsInStr, hdata]
  rw [renderScan_placeholder vm k.data sp1.data sp2.data sfx.data hk hk0 h1 h2]
  rw [strEta k, hv]
  have hbeq : (v == Json.null) = false := by
    cases v
    · exact absurd rfl hnn
    all_goals rfl
  rw [hbeq]
  simp only [Bool.false_eq_true, if_false]
  rw [strMkAppend, strEta]

end Clipse

namespace Clipse

theorem strExt (a b : String) (h : a.data = b.data) : a = b := by
  cases a
  cases b
  simp only at h
  rw [h]

theorem renderVarsInStr_verbatim (vm : JObj) (k sp1 sp2 sfx : String)
    (hk : ∀ c ∈ k.data, isVarChar c = true) (hk0 : k.data ≠ [])
    (h1 : ∀ c ∈ sp1.data, isPySpace c = true) (h2 : ∀ c ∈ sp2.data, isPySpace c = true)
    (hv : (getKey? vm k).getD Json.null = Json.null) :
    renderVarsInStr vm none ("\x7b\x7b" ++ sp1 ++ "vars." ++ k ++ sp2 ++ "\x7d\x7d" ++ sfx)
      = ("\x7b\x7b" ++ sp1 ++ "vars." ++ k ++ sp2 ++ "\x7d\x7d") ++ renderVarsInStr vm none sfx := by
  have hdata : ("\x7b\x7b" ++ sp1 ++ "vars." ++ k ++ sp2 ++ "\x7d\x7d" ++ sfx).data
      = '{' :: '{' :: (sp1.data ++ ('v' :: 'a' :: 'r' :: 's' :: '.' ::
          (k.data ++ sp2.data ++ ('}' :: '}' :: sfx.data)))) := by
    simp [String.data_append]
  simp only [renderVarsInStr, hdata]
  rw [renderScan_placeholder vm k.data sp1.data sp2.data sfx.data hk hk0 h1 h2]
  rw [strEta k, hv]
  have hbeq : (Json.null == Json.null) = true := rfl
  rw [hbeq]
  simp only [if_true]
  rw [strMkAppend]
  congr 1
  apply strExt
  simp [String.data_append]

theorem renderVarsInList_map (vm : JObj) (idv : Option String) (xs : List Json) :
    renderVarsInList vm idv xs = xs.map (renderVarsInObj vm idv) := by
  induction xs with
  | nil => rfl
  | cons x t ih => simp [renderVarsInList, ih]

theorem renderVarsInEntries_map (vm : JObj) (idv : Option String) (m : JObj) :
    renderVarsInEntries vm idv m = m.map (fun kv => (kv.1, renderVarsInObj vm idv kv.2)) := by
  induction m with
  | nil => rfl
  | cons kv t ih =>
    obtain ⟨k0, v0⟩ := kv
    simp [renderVarsInEntries, ih]

end Clipse

namespace Clipse

/-- Typed ConstraintSet shape from spec §3: `requires: [key,...]`,
`conflicts: [[a,b],...]`, `exactly_one_of: [[key,...],...]`,
`at_least_one_of: [[key,...],...]`. -/
structure ConstraintSet where
  requires : List String
  conflicts : List (String × String)
  exactly_one_of : List (List String)
  at_least_one_of : List (List String)

/-- The constraints mapping a `ConstraintSet` denotes. -/
def constraintSetToJObj (cs : ConstraintSet) : JObj :=
  [("requires", .arr (cs.requires.map .str)),
   ("conflicts", .arr (cs.conflicts.map (fun p => .arr [.str p.1, .str p.2]))),
   ("exactly_one_of", .arr (cs.exactly_one_of.map (fun g => .arr (g.map .str)))),
   ("at_least_one_of", .arr (cs.at_least_one_of.map (fun g => .arr (g.map .str))))]

/-- Issue list written from the claim's words: per rule instance, an issue is
emitted exactly when its condition is violated; every rule is evaluated
independently and all issues are collected, in rule-family order. -/
def issuesSpec (sel : List String) (cs : ConstraintSet) : List String :=
  cs.requires.flatMap (fun k => if sel.contains k then [] else ["requires: missing " ++ k])
  ++ cs.conflicts.flatMap (fun p =>
       if sel.contains p.1 && sel.contains p.2
       then ["conflicts: " ++ p.1 ++ " vs " ++ p.2] else [])
  ++ cs.exactly_one_of.flatMap (fun g =>
       if (g.filter (fun x => sel.contains x)).length ≠ 1
       then ["exactly_one_of violation: " ++ pyStr (.arr (g.map .str)) ++ " present="
              ++ toString (g.filter (fun x => sel.contains x)).length]
       else [])
  ++ cs.at_least_one_of.flatMap (fun g =>
       if (g.filter (fun x => sel.contains x)).length < 1
       then ["at_least_one_of violation: " ++ pyStr (.arr (g.map .str))]
       else [])

theorem requiresIssues_spec (sel : List String) (l : List String) :
    requiresIssues sel (l.map .str)
      = l.flatMap (fun k => if sel.contains k then [] else ["requires: missing " ++ k]) := by
  induction l with
  | nil => rfl
  | cons x t ih =>
    simp only [List.map_cons, requiresIssues, List.flatMap_cons, ih]
    rfl

theorem conflictsIssues_spec (sel : List String) (l : List (String × String)) :
    conflictsIssues sel (l.map (fun p => .arr [.str p.1, .str p.2]))
      = .ok (l.flatMap (fun p =>
          if sel.contains p.1 && sel.contains p.2
          then ["conflicts: " ++ p.1 ++ " vs " ++ p.2] else [])) := by
  induction l with
  | nil => rfl
  | cons x t ih =>
    obtain ⟨a, b⟩ := x
    simp only [List.map_cons, conflictsIssues, List.flatMap_cons, ih]
    rfl

theorem groupCount_spec (sel : List String) (g : List String) :
    groupCount sel (g.map .str) = (g.filter (fun x => sel.contains x)).length := by
  induction g with
  | nil => rfl
  | cons x t ih =>
    simp only [groupCount, List.map_cons, List.filter_cons] at *
    have hpc : pyContains sel (Json.str x) = sel.contains x := rfl
    rw [hpc]
    cases hx : sel.contains x <;> simp [hx, ih]

theorem exactlyOneIssues_spec (sel : List String) (l : List (List String)) :
    exactlyOneIssues sel (l.map (fun g => .arr (g.map .str)))
      = .ok (l.flatMap (fun g =>
          if (g.filter (fun x => sel.contains x)).length ≠ 1
          then ["exactly_one_of violation: " ++ pyStr (.arr (g.map .str)) ++ " present="
                 ++ toString (g.filter (fun x => sel.contains x)).length]
          else [])) := by
  induction l with
  | nil => rfl
  | cons g t ih =>
    simp only [List.map_cons, exactlyOneIssues, asPyList, ih, List.flatMap_cons, groupCount_spec]

theorem atLeastOneIssues_spec (sel : List String) (l : List (List String)) :
    atLeastOneIssues sel (l.map (fun g => .arr (g.map .str)))
      = .ok (l.flatMap (fun g =>
          if (g.filter (fun x => sel.contains x)).length < 1
          then ["at_least_one_of violation: " ++ pyStr (.arr (g.map .str))]
          else [])) := by
  induction l with
  | nil => rfl
  | cons g t ih =>
    simp only [List.map_cons, atLeastOneIssues, asPyList, ih, List.flatMap_cons, groupCount_spec]

theorem validateConstraints_spec (sel : List String) (cs : ConstraintSet) :
    validateConstraints sel (constraintSetToJObj cs) = .ok (issuesSpec sel cs) := by
  have h1 : (getKey? (constraintSetToJObj cs) "requires").getD (.arr [])
      = .arr (cs.requires.map .str) := rfl
  have h2 : (getKey? (constraintSetToJObj cs) "conflicts").getD (.arr [])
      = .arr (cs.conflicts.map (fun p => .arr [.str p.1, .str p.2])) := rfl
  have h3 : (getKey? (constraintSetToJObj cs) "exactly_one_of").getD (.arr [])
      = .arr (cs.exactly_one_of.map (fun g => .arr (g.map .str))) := rfl
  have h4 : (getKey? (constraintSetToJObj cs) "at_least_one_of").getD (.arr [])
      = .arr (cs.at_least_one_of.map (fun g => .arr (g.map .str))) := rfl
  simp only [validateConstraints, h1, h2, h3, h4, asPyList,
    conflictsIssues_spec, exactlyOneIssues_spec, atLeastOneIssues_spec,
    requiresIssues_spec, issuesSpec, List.append_assoc]

theorem beqComm (a b : String) : (a == b) = (b == a) := by
  by_cases h : a = b
  · subst h
    rfl
  · simp [h, Ne.symm h]

theorem hasKey_setKey (m : JObj) (k k' : String) (v : Json) :
    hasKey (setKey m k v) k' = (k' == k || hasKey m k') := by
  by_cases h : k' = k
  · subst h
    simp [hasKey, getKey?_setKey_self]
  · simp [hasKey, getKey?_setKey_ne _ _ _ _ h, h]

theorem hasKey_cons (k0 : String) (v0 : Json) (rest : JObj) (k : String) :
    hasKey ((k0, v0) :: rest) k = ((k0 == k) || hasKey rest k) := by
  by_cases h : k0 = k
  · subst h
    simp [hasKey, getKey?]
  · simp [hasKey, getKey?, h]

theorem hasKey_dictUnion (a b : JObj) (k : String) :
    hasKey (dictUnion a b) k = (hasKey a k || hasKey b k) := by
  induction b generalizing a with
  | nil => simp [dictUnion, hasKey, getKey?]
  | cons kv rest ih =>
    obtain ⟨k0, v0⟩ := kv
    have hstep : dictUnion a ((k0, v0) :: rest) = dictUnion (setKey a k0 v0) rest := rfl
    rw [hstep, ih, hasKey_setKey, hasKey_cons, beqComm k k0]
    cases k0 == k <;> cases hasKey a k <;> cases hasKey rest k <;> rfl

theorem keysContains_eq_hasKey (m : JObj) (k : String) :
    (collectSelectedKeys m).contains k = hasKey m k := by
  induction m with
  | nil => rfl
  | cons kv rest ih =>
    obtain ⟨k0, v0⟩ := kv
    rw [hasKey_cons]
    simp only [collectSelectedKeys, List.map_cons, List.contains_cons] at *
    rw [ih, beqComm k k0]

end Clipse

namespace Clipse

/-- Per-entry check that an object carries no reference marker inside its
mapping-valued `actions`, matching the walk of `_apply_refs`. -/
def nodeActionsNoMarkers (o : Json) : Bool :=
  match o with
  | .obj od =>
    (match getKey? od "actions" with
     | some (.obj am) => am.all (fun akv => !isRefMarker akv.2)
     | _ => true)
  | _ => true

/-- Documents in which the positions walked by `_apply_refs` (top-level
`objects`, their nested `actions`, top-level `actions`) carry no reference
marker. -/
def noRefMarkers (d : JObj) : Bool :=
  (match getKey? d "objects" with
   | some (.obj objs) =>
     objs.all (fun kv => !isRefMarker kv.2) && objs.all (fun kv => nodeActionsNoMarkers kv.2)
   | _ => true) &&
  (match getKey? d "actions" with
   | some (.obj acts) => acts.all (fun kv => !isRefMarker kv.2)
   | _ => true)

theorem processEntry_no_marker (doc : Json) (v : Json) (h : isRefMarker v = false) :
    processEntry doc v = .ok v := by
  cases v with
  | obj vm =>
    simp only [isRefMarker] at h
    simp [processEntry, h]
  | null => rfl
  | bool b => rfl
  | int n => rfl
  | str s => rfl
  | arr xs => rfl

theorem processMapping_id (doc : Json) (m : JObj)
    (h : m.all (fun kv => !isRefMarker kv.2) = true) :
    processMapping doc m = .ok m := by
  induction m with
  | nil => rfl
  | cons kv rest ih =>
    obtain ⟨k, v⟩ := kv
    simp only [List.all_cons, Bool.and_eq_true, Bool.not_eq_true'] at h
    simp only [processMapping, processEntry_no_marker doc v h.1,
      ih (by simpa using h.2), okBind]

theorem processObjActions_id (doc : Json) (m : JObj)
    (h : m.all (fun kv => nodeActionsNoMarkers kv.2) = true) :
    processObjActions doc m = .ok m := by
  induction m with
  | nil => rfl
  | cons kv rest ih =>
    obtain ⟨k, o⟩ := kv
    simp only [List.all_cons, Bool.and_eq_true] at h
    have hrest := ih (by simpa using h.2)
    have hone := h.1
    simp only [processObjActions, hrest]
    cases o with
    | obj od =>
      simp only [nodeActionsNoMarkers] at hone
      cases hact : getKey? od "actions" with
      | none => simp only [hact, okBind]
      | some av =>
        cases av with
        | obj am =>
          rw [hact] at hone
          simp only [hact, processMapping_id doc am hone, okBind]
          rw [setKey_getKey?_self od "actions" (.obj am) hact]
        | null => simp only [hact, okBind]
        | bool b => simp only [hact, okBind]
        | int n => simp only [hact, okBind]
        | str s => simp only [hact, okBind]
        | arr xs => simp only [hact, okBind]
    | null => simp only [okBind]
    | bool b => simp only [okBind]
    | int n => simp only [okBind]
    | str s => simp only [okBind]
    | arr xs => simp only [okBind]

theorem applyRefs_id (d : JObj) (h : noRefMarkers d = true) : applyRefs d = .ok d := by
  simp only [noRefMarkers, Bool.and_eq_true] at h
  obtain ⟨hobjs, hacts⟩ := h
  have hstep1 : applyRefsObjectsStep (Json.obj d) d = Except.ok d := by
    simp only [applyRefsObjectsStep]
    cases hobj : getKey? d "objects" with
    | none => rfl
    | some ov =>
      cases ov with
      | obj objs =>
        rw [hobj] at hobjs
        simp only [Bool.and_eq_true] at hobjs
        simp only [processMapping_id _ _ hobjs.1, okBind,
          processObjActions_id _ _ hobjs.2]
        rw [setKey_getKey?_self d "objects" (.obj objs) hobj]
      | null => rfl
      | bool b => rfl
      | int n => rfl
      | str s => rfl
      | arr xs => rfl
  have hstep2 : applyRefsActionsStep (Json.obj d) d = Except.ok d := by
    simp only [applyRefsActionsStep]
    cases hact : getKey? d "actions" with
    | none => rfl
    | some av =>
      cases av with
      | obj acts =>
        rw [hact] at hacts
        simp only [processMapping_id _ _ hacts, okBind]
        rw [setKey_getKey?_self d "actions" (.obj acts) hact]
      | null => rfl
      | bool b => rfl
      | int n => rfl
      | str s => rfl
      | arr xs => rfl
  show (applyRefsObjectsStep (Json.obj d) d >>= fun r1 => applyRefsActionsStep (Json.obj d) r1)
      = Except.ok d
  rw [hstep1, okBind]
  exact hstep2

theorem resolveConfig_issues (raw : JObj) (r : ResolutionResult)
    (h : resolveConfig raw = .ok r) : collectIssues r.resolved = .ok r.issues := by
  unfold resolveConfig at h
  cases happ : applyRefs raw with
  | error e =>
    rw [happ] at h
    exact Except.noConfusion h
  | ok d =>
    rw [happ] at h
    simp only [okBind] at h
    cases hcoll : collectIssues (renderVarsInEntries (extractVars d) none d) with
    | error e =>
      rw [hcoll] at h
      exact Except.noConfusion h
    | ok iss =>
      rw [hcoll] at h
      simp only [okBind, Except.ok.injEq] at h
      rw [← h]
      exact hcoll

end Clipse

namespace Clipse

set_option maxRecDepth 10000

/-- End-to-end document of claim C1: `shared_defs.vars.tool = "acme"`, one
object `deploy` with a placeholder description, an `at_least_one_of`
constraint over undeclared keys, and empty `options`. -/
def c1doc : JObj :=
  [("shared_defs", .obj [("vars", .obj [("tool", .str "acme")])]),
   ("objects", .obj [("deploy", .obj
     [("description", .str "Deploy \x7b\x7bvars.tool\x7d\x7d service"),
      ("constraints", .obj [("at_least_one_of", .arr [.arr [.str "region", .str "zone"]])]),
      ("options", .obj [])])])]

/-- Claim C1: for the end-to-end document, `resolve_config` renders the
description to "Deploy acme service" and returns exactly the single issue
string `object deploy: at_least_one_of violation: ['region', 'zone']`. -/
theorem C1_end_to_end :
    (resolveConfig c1doc).map (fun r =>
      (getPath? (Json.obj r.resolved) ["objects", "deploy", "description"], r.issues))
    = .ok (some (.str "Deploy acme service"),
        ["object deploy: at_least_one_of violation: ['region', 'zone']"]) := by decide

/-- Reference-expansion example document from the spec: `derived` refers to
`base` and overrides `names`. -/
def c2exDoc : JObj :=
  [("objects", .obj
    [("base", .obj [("options", .obj [("o1", .obj [("names", .arr [.str "-o"])])])]),
     ("derived", .obj [("$ref", .str "#/objects/base"), ("names", .arr [.str "d"])])])]

/-- Expected expansion of `c2exDoc`. -/
def c2exExpanded : JObj :=
  [("objects", .obj
    [("base", .obj [("options", .obj [("o1", .obj [("names", .arr [.str "-o"])])])]),
     ("derived", .obj [("options", .obj [("o1", .obj [("names", .arr [.str "-o"])])]),
                       ("names", .arr [.str "d"])])])]

/-- Document whose `$ref` points at a missing object. -/
def c2missingDoc : JObj :=
  [("objects", .obj [("derived", .obj [("$ref", .str "#/objects/missing")])])]

/-- Claim C2: reference expansion walks the top-level `objects`, nested
`actions` and top-level `actions` entries exactly as the spec words it
(resolving against the original document, failing on unresolvable pointers
with an error naming the missing segment, failing on non-mapping targets,
deep-merging non-`$ref` sibling fields over the target, and deep-copying
non-marker entries unchanged): the translated code coincides with the
spec-twin on every document, and behaves as specified on the spec's two
examples. -/
theorem C2_reference_expansion :
    (∀ doc m, processMapping doc m = expandMapSpec doc m)
    ∧ (∀ d, applyRefs d = applyRefsSpec d)
    ∧ applyRefs c2exDoc = .ok c2exExpanded
    ∧ applyRefs c2missingDoc
        = .error "Invalid $ref path segment: 'missing' in #/objects/missing" :=
  ⟨processMapping_eq_spec, applyRefs_eq_spec, by decide, by decide⟩

/-- Claim C3: deep merge maps every key to the recursive merge on a
mapping/mapping collision, the override value otherwise, and retains
base-only keys; and the spec's two concrete examples hold.  (Purity is
inherent in the functional embedding: `merge` builds a new list and cannot
mutate its arguments.) -/
theorem C3_deep_merge :
    (∀ a b k, (b.map Prod.fst).Nodup → getKey? (merge a b) k = mergeLookupSpec a b k)
    ∧ merge [("a", .int 1), ("b", .obj [("x", .int 1)])] [("b", .obj [("y", .int 2)]), ("c", .int 3)]
        = [("a", .int 1), ("b", .obj [("x", .int 1), ("y", .int 2)]), ("c", .int 3)]
    ∧ merge [("a", .obj [("x", .int 1)])] [("a", .int 5)] = [("a", .int 5)] :=
  ⟨fun a b k hb => getKey?_merge_spec a b k hb, by decide, by decide⟩

theorem C3_deep_merge_witness :
    ([("b", Json.obj [("y", Json.int 2)]), ("c", Json.int 3)].map Prod.fst).Nodup
    ∧ getKey? (merge [("a", Json.int 1), ("b", Json.obj [("x", Json.int 1)])]
        [("b", Json.obj [("y", Json.int 2)]), ("c", Json.int 3)]) "b"
      = mergeLookupSpec [("a", Json.int 1), ("b", Json.obj [("x", Json.int 1)])]
          [("b", Json.obj [("y", Json.int 2)]), ("c", Json.int 3)] "b" :=
  ⟨by decide, C3_deep_merge.1 _ _ "b" (by decide)⟩

/-- Claim C4, counterexample: the code does not descend by "the segments of
the text after the leading `#`".  `pointer.lstrip("#/")` also strips `#`
characters that begin the first segment, so `#/#a` addresses key `a`, not
`#a`; and Python's `$` accepts `"#\n"`, which the claimed grammar rejects,
and the code then descends by the segment `"\n"`. -/
theorem C4_pointer_counterexample :
    jsonPointerGet (.obj [("#a", .int 1), ("a", .int 2)]) "#/#a" = .ok (.int 2)
    ∧ jsonPointerGetClaim (.obj [("#a", .int 1), ("a", .int 2)]) "#/#a" = .ok (.int 1)
    ∧ jsonPointerReStrict "#\n" = false
    ∧ jsonPointerGet (.obj [("\n", .int 42)]) "#\n" = .ok (.int 42)
    ∧ jsonPointerGetClaim (.obj [("\n", .int 42)]) "#\n"
        = .error "Unsupported $ref; must be local JSON Pointer, got: #\n" := by decide

/-- Claim C4 as amended: the claimed algorithm is exact for every pointer of
the grammar whose first segment does not begin with `#`; any string failing
the grammar other than `"#\n"` is rejected as malformed; `"#\n"` is
accepted and descends by the single segment `"\n"`; `#` yields the whole
document; `~1`/`~0` unescaping addresses keys named `a/b` and `~`. -/
theorem C4_pointer_amended :
    (∀ doc p, jsonPointerReStrict p = true → firstSegNoHash p = true →
        jsonPointerGet doc p = jsonPointerGetClaim doc p)
    ∧ (∀ doc p, jsonPointerReStrict p = false → p ≠ "#\n" →
        jsonPointerGet doc p
          = .error ("Unsupported $ref; must be local JSON Pointer, got: " ++ p))
    ∧ (∀ doc, jsonPointerGet doc "#\n" = pointerDescend doc ["\n"] "#\n")
    ∧ (∀ doc, jsonPointerGet doc "#" = .ok doc)
    ∧ jsonPointerGet (.obj [("a/b", .int 7)]) "#/a~1b" = .ok (.int 7)
    ∧ jsonPointerGet (.obj [("~", .int 8)]) "#/~0" = .ok (.int 8) :=
  ⟨pointerGet_agrees, pointerGet_malformed, pointerGet_newline, pointerGet_root,
   by decide, by decide⟩

theorem C4_pointer_amended_witness :
    jsonPointerReStrict "#/objects/x" = true
    ∧ firstSegNoHash "#/objects/x" = true
    ∧ jsonPointerGet (.obj [("objects", .obj [("x", .int 1)])]) "#/objects/x"
        = jsonPointerGetClaim (.obj [("objects", .obj [("x", .int 1)])]) "#/objects/x"
    ∧ jsonPointerGet (.obj []) "##"
        = .error "Unsupported $ref; must be local JSON Pointer, got: ##" :=
  ⟨by decide, by decide, C4_pointer_amended.1 _ _ (by decide) (by decide),
   C4_pointer_amended.2.1 _ _ (by decide) (by decide)⟩

end Clipse

namespace Clipse

/-- Claim C5, counterexample: a key present in the vars map but bound to
`None` is NOT substituted (the claim's "replaced ... when KEY is present"
would give `"None"`); the placeholder is left verbatim. -/
theorem C5_render_counterexample :
    renderVarsInStr [("k", Json.null)] none "\x7b\x7bvars.k\x7d\x7d" = "\x7b\x7bvars.k\x7d\x7d"
    ∧ "\x7b\x7bvars.k\x7d\x7d" ≠ "None" := by decide

/-- Claim C5 as amended: rendering replaces every `\x7b\x7b vars.KEY \x7d\x7d`
occurrence (whitespace-tolerant) by `str(vars[KEY])` when `KEY` is present
with a non-`None` value and leaves it verbatim otherwise (unknown or
`None`-bound keys); it never raises; lists render element-wise in order,
mappings value-wise with keys preserved, non-string scalars unchanged; a
supplied id value substitutes the literal text `\x7b\x7bid\x7d\x7d`. -/
theorem C5_render_amended :
    (∀ vm idv xs, renderVarsInObj vm idv (.arr xs) = .arr (xs.map (renderVarsInObj vm idv)))
    ∧ (∀ vm idv m, renderVarsInObj vm idv (.obj m)
        = .obj (m.map (fun kv => (kv.1, renderVarsInObj vm idv kv.2))))
    ∧ (∀ vm idv, renderVarsInObj vm idv .null = .null)
    ∧ (∀ vm idv b, renderVarsInObj vm idv (.bool b) = .bool b)
    ∧ (∀ vm idv n, renderVarsInObj vm idv (.int n) = .int n)
    ∧ (∀ vm k sp1 sp2 sfx v,
        (∀ c ∈ (k : String).data, isVarChar c = true) → k.data ≠ [] →
        (∀ c ∈ (sp1 : String).data, isPySpace c = true) →
        (∀ c ∈ (sp2 : String).data, isPySpace c = true) →
        getKey? vm k = some v → v ≠ Json.null →
        renderVarsInStr vm none ("\x7b\x7b" ++ sp1 ++ "vars." ++ k ++ sp2 ++ "\x7d\x7d" ++ sfx)
          = pyStr v ++ renderVarsInStr vm none sfx)
    ∧ (∀ vm k sp1 sp2 sfx,
        (∀ c ∈ (k : String).data, isVarChar c = true) → k.data ≠ [] →
        (∀ c ∈ (sp1 : String).data, isPySpace c = true) →
        (∀ c ∈ (sp2 : String).data, isPySpace c = true) →
        (getKey? vm k).getD Json.null = Json.null →
        renderVarsInStr vm none ("\x7b\x7b" ++ sp1 ++ "vars." ++ k ++ sp2 ++ "\x7d\x7d" ++ sfx)
          = ("\x7b\x7b" ++ sp1 ++ "vars." ++ k ++ sp2 ++ "\x7d\x7d") ++ renderVarsInStr vm none sfx)
    ∧ renderVarsInStr [] none "\x7b\x7bvars.nope\x7d\x7d" = "\x7b\x7bvars.nope\x7d\x7d"
    ∧ renderVarsInStr [] (some "X") "a \x7b\x7bid\x7d\x7d b" = "a X b" := by
  refine ⟨?_, ?_, fun vm idv => rfl, fun vm idv b => rfl, fun vm idv n => rfl, ?_, ?_, by decide, by decide⟩
  · intro vm idv xs
    simp [renderVarsInObj, renderVarsInList_map]
  · intro vm idv m
    simp [renderVarsInObj, renderVarsInEntries_map]
  · intro vm k sp1 sp2 sfx v hk hk0 h1 h2 hv hnn
    exact renderVarsInStr_known vm k sp1 sp2 sfx v hk hk0 h1 h2 (by rw [hv]; rfl) hnn
  · intro vm k sp1 sp2 sfx hk hk0 h1 h2 hv
    exact renderVarsInStr_verbatim vm k sp1 sp2 sfx hk hk0 h1 h2 hv

theorem C5_render_amended_witness :
    (("tool" : String).data.all isVarChar) = true
    ∧ getKey? [("tool", Json.str "acme")] "tool" = some (Json.str "acme")
    ∧ renderVarsInStr [("tool", Json.str "acme")] none
        ("\x7b\x7b" ++ "" ++ "vars." ++ "tool" ++ "" ++ "\x7d\x7d" ++ " service")
      = pyStr (Json.str "acme")
        ++ renderVarsInStr [("tool", Json.str "acme")] none " service" :=
  ⟨by decide, by decide,
   C5_render_amended.2.2.2.2.2.1 [("tool", Json.str "acme")] "tool" "" "" " service"
     (Json.str "acme") (by decide) (by decide) (by decide) (by decide) (by decide) (by decide)⟩

/-- Cyclic document of claim C7: `a` refers to `b` and `b` refers to `a`. -/
def cycDoc : JObj :=
  [("objects", .obj [("a", .obj [("$ref", .str "#/objects/b")]),
                     ("b", .obj [("$ref", .str "#/objects/a")])])]

/-- What single-pass expansion actually produces on `cycDoc`: each object is
replaced by the other's marker, still unexpanded. -/
def cycExpanded : JObj :=
  [("objects", .obj [("a", .obj [("$ref", .str "#/objects/a")]),
                     ("b", .obj [("$ref", .str "#/objects/b")])])]

/-- Claim C7, counterexample: expansion of the cyclic document terminates
with a concrete value (the embedding of `_apply_refs` is a total function
evaluated here by the kernel), refuting "recurses without bound / does not
terminate": `_apply_refs` expands each marker exactly once against the
original document and never re-expands the merged result. -/
theorem C7_cycle_counterexample : applyRefs cycDoc = .ok cycExpanded := by decide

/-- Claim C7 as amended: on the cyclic document resolution terminates and
completes; each object's value is still a reference marker (the cycle is
left unexpanded, not recursed into), and no issues are reported. -/
theorem C7_cycle_amended :
    resolveConfig cycDoc = .ok ⟨cycExpanded, []⟩
    ∧ isRefMarker ((getPath? (.obj cycExpanded) ["objects", "a"]).getD .null) = true
    ∧ isRefMarker ((getPath? (.obj cycExpanded) ["objects", "b"]).getD .null) = true := by decide

/-- Claim C6: over the declared ConstraintSet shape, constraint evaluation
returns exactly the claim's issue list (requires-entry missing, conflict
pair both selected, exactly-one-of count not one, at-least-one-of count
below one, all collected independently); an empty constraints mapping yields
no issues; selected keys are precisely the union of the `options` and
`positionals` key sets; the spec's satisfied-exactly-one example yields no
issue. -/
theorem C6_constraint_evaluation :
    (∀ sel cs, validateConstraints sel (constraintSetToJObj cs) = .ok (issuesSpec sel cs))
    ∧ (∀ sel, validateConstraints sel [] = .ok [])
    ∧ (∀ opts poss k, (collectSelectedKeys (dictUnion opts poss)).contains k
        = (hasKey opts k || hasKey poss k))
    ∧ validateConstraints ["x"] [("exactly_one_of", .arr [.arr [.str "x", .str "y"]])] = .ok [] :=
  ⟨validateConstraints_spec, fun sel => rfl,
   fun opts poss k => by rw [keysContains_eq_hasKey, hasKey_dictUnion], by decide⟩

/-- Schema-shaped document with an unsatisfiable `at_least_one_of`
constraint (mirrors the repository's CLI test). -/
def c8doc : JObj :=
  [("global", .obj [("options", .obj [])]),
   ("behavior", .obj []),
   ("objects", .obj [("obj", .obj
      [("names", .arr [.str "obj"]),
       ("description_short", .str "d"),
       ("constraints", .obj [("at_least_one_of", .arr [.arr [.str "x", .str "y"]])]),
       ("options", .obj []),
       ("positionals", .obj [])])]),
   ("actions", .obj [])]

/-- Claim C8: over the declared ConstraintSet shape constraint evaluation
always returns an issue list (never an error), and resolution of a document
with violated constraints still completes, returning the resolved document
alongside the nonempty issue list. -/
theorem C8_constraints_never_raise :
    (∀ sel cs, ∃ issues, validateConstraints sel (constraintSetToJObj cs) = .ok issues)
    ∧ (resolveConfig c8doc).map (fun r => (r.resolved, r.issues))
        = .ok (c8doc, ["object obj: at_least_one_of violation: ['x', 'y']"]) :=
  ⟨fun sel cs => ⟨issuesSpec sel cs, validateConstraints_spec sel cs⟩, by decide⟩

/-- Claim C9: once a resolved document contains no reference markers and
rendering it with its own vars map leaves it unchanged (no placeholders
naming known vars remain), resolving it again returns the identical
resolved document and exactly the first pass's issues. -/
theorem C9_idempotent (raw : JObj) (r : ResolutionResult)
    (h1 : resolveConfig raw = .ok r)
    (h2 : noRefMarkers r.resolved = true)
    (h3 : renderVarsInEntries (extractVars r.resolved) none r.resolved = r.resolved) :
    resolveConfig r.resolved = .ok r := by
  have happ := applyRefs_id r.resolved h2
  have hiss := resolveConfig_issues raw r h1
  unfold resolveConfig
  rw [happ]
  simp only [okBind]
  rw [h3, hiss]
  simp only [okBind]

/-- Resolved form of `c1doc`, with its issue list. -/
def c9res : ResolutionResult :=
  { resolved :=
      [("shared_defs", .obj [("vars", .obj [("tool", .str "acme")])]),
       ("objects", .obj [("deploy", .obj
         [("description", .str "Deploy acme service"),
          ("constraints", .obj [("at_least_one_of", .arr [.arr [.str "region", .str "zone"]])]),
          ("options", .obj [])])])],
    issues := ["object deploy: at_least_one_of violation: ['region', 'zone']"] }

theorem C9_idempotent_witness :
    resolveConfig c1doc = .ok c9res
    ∧ noRefMarkers c9res.resolved = true
    ∧ resolveConfig c9res.resolved = .ok c9res :=
  ⟨by decide, by decide, C9_idempotent c1doc c9res (by decide) (by decide) (by decide)⟩

/-- Claim C10: a variable bound to `None` is treated as absent — the
placeholder is left verbatim even though the key is present — and
substitution does occur for non-`None` falsy values (`False` renders as
"False", `0` as "0"); in particular the `None` binding does not render as
the string "None". -/
theorem C10_null_var :
    (∀ vm k sp1 sp2 sfx,
        (∀ c ∈ (k : String).data, isVarChar c = true) → k.data ≠ [] →
        (∀ c ∈ (sp1 : String).data, isPySpace c = true) →
        (∀ c ∈ (sp2 : String).data, isPySpace c = true) →
        getKey? vm k = some Json.null →
        renderVarsInStr vm none ("\x7b\x7b" ++ sp1 ++ "vars." ++ k ++ sp2 ++ "\x7d\x7d" ++ sfx)
          = ("\x7b\x7b" ++ sp1 ++ "vars." ++ k ++ sp2 ++ "\x7d\x7d")
            ++ renderVarsInStr vm none sfx)
    ∧ renderVarsInStr [("k", Json.bool false)] none "\x7b\x7bvars.k\x7d\x7d" = "False"
    ∧ renderVarsInStr [("k", Json.int 0)] none "\x7b\x7bvars.k\x7d\x7d" = "0"
    ∧ renderVarsInStr [("k", Json.null)] none "\x7b\x7bvars.k\x7d\x7d" ≠ "None" :=
  ⟨fun vm k sp1 sp2 sfx hk hk0 h1 h2 hv =>
     renderVarsInStr_verbatim vm k sp1 sp2 sfx hk hk0 h1 h2 (by rw [hv]; rfl),
   by decide, by decide, by decide⟩

theorem C10_null_var_witness :
    (("k" : String).data.all isVarChar) = true
    ∧ getKey? [("k", Json.null)] "k" = some Json.null
    ∧ renderVarsInStr [("k", Json.null)] none
        ("\x7b\x7b" ++ "" ++ "vars." ++ "k" ++ "" ++ "\x7d\x7d" ++ "")
      = ("\x7b\x7b" ++ "" ++ "vars." ++ "k" ++ "" ++ "\x7d\x7d")
        ++ renderVarsInStr [("k", Json.null)] none "" :=
  ⟨by decide, by decide,
   C10_null_var.1 [("k", Json.null)] "k" "" "" ""
     (by decide) (by decide) (by decide) (by decide) (by decide)⟩

end Clipse
